import Mathlib

/-!
Shallow embedding of the core storage and query machinery of
couchbase-lite-core, as it appears in this snapshot:

* `src/LiteCore/Storage/BothKeyStore.cc` — the live/dead key-store federation
  (`BothKeyStore::set`, `BothKeyStore::nextExpiration`,
  `BothEnumeratorImpl::next`);
* `src/LiteCore/Query/SQLiteQuery.cc` — the query enumerator
  (`refresh`/`createEnumerator`, `seek`, `encodeRow`'s missing-columns bitmap,
  `bindParameters`);
* `src/CBForest/Database.cc` — `Database::closeKeyStore` and its handle cache;
* the replicator's `DBActor::handleSetCheckpoint`.

Functions present in the source tree are translated directly.  Collaborators
whose code is not in the tree (the physical `KeyStore` primitives behind
`BothKeyStore`, and the raw-document store behind the checkpoint handler) are
modelled from the specification's contracts and carry a doc comment saying so.
-/

namespace litecore

/-- Association-list lookup keyed by strings (models access to a
`std::map`/`std::unordered_map` or a keyed table). -/
def alistLookup {α : Type} : List (String × α) → String → Option α
  | [], _ => none
  | (k, v) :: rest, key => if k = key then some v else alistLookup rest key

/-- Remove every entry with the given key. -/
def alistErase {α : Type} : List (String × α) → String → List (String × α)
  | [], _ => []
  | (k, v) :: rest, key =>
    if k = key then alistErase rest key else (k, v) :: alistErase rest key

/-- Insert or overwrite the entry for a key. -/
def alistSet {α : Type} (l : List (String × α)) (key : String) (v : α) :
    List (String × α) :=
  (key, v) :: alistErase l key


/-! ## BothKeyStore (`src/LiteCore/Storage/BothKeyStore.cc`) -/

/-- One stored record of a physical key-store (the key is the map key). -/
structure PhysRecord where
  version : String
  value : String
  deleted : Bool
  sequence : Nat
deriving DecidableEq

/-- Contents of one physical key-store. -/
abbrev Store := List (String × PhysRecord)

/-- Modelled from the spec: physical `KeyStore::set` (spec section 4.1).  The
physical stores behind `BothKeyStore` are not part of the source tree.  With
`replacingSequence` absent: unconditional upsert under a fresh sequence.  With
`replacingSequence == 0`: insert only if no record exists, else return 0.  With
`replacingSequence > 0`: update only when the stored sequence matches, else
return 0; when `newSequence` is false the sequence `replacingSequence` is
reused instead of allocating.  Returns (sequence, store, shared allocator). -/
def physSet (st : Store) (lastSeq : Nat) (key version value : String) (del : Bool)
    (replacing : Option Nat) (newSeq : Bool) : Nat × Store × Nat :=
  match replacing with
  | none =>
    let s := lastSeq + 1
    (s, alistSet st key ⟨version, value, del, s⟩, s)
  | some r =>
    if r = 0 then
      match alistLookup st key with
      | some _ => (0, st, lastSeq)
      | none =>
        let s := lastSeq + 1
        (s, alistSet st key ⟨version, value, del, s⟩, s)
    else
      match alistLookup st key with
      | some r0 =>
        if r0.sequence = r then
          if newSeq then
            let s := lastSeq + 1
            (s, alistSet st key ⟨version, value, del, s⟩, s)
          else (r, alistSet st key ⟨version, value, del, r⟩, lastSeq)
        else (0, st, lastSeq)
      | none => (0, st, lastSeq)

/-- Modelled from the spec: physical `KeyStore::del` (spec section 4.1).
Without `expectedSequence`: unconditional delete, true iff a record existed.
With `expectedSequence`: CAS delete, true iff a record existed with the
matching sequence. -/
def physDel (st : Store) (key : String) (expected : Option Nat) : Bool × Store :=
  match expected with
  | none => ((alistLookup st key).isSome, alistErase st key)
  | some e =>
    match alistLookup st key with
    | some r0 => if r0.sequence = e then (true, alistErase st key) else (false, st)
    | none => (false, st)

/-- Modelled from the spec: the `other->get(key, kMetaOnly, ...)` existence
check used by `BothKeyStore::set` (`rec.exists()` inside the callback). -/
def physExists (st : Store) (key : String) : Bool := (alistLookup st key).isSome

/-- State of a `BothKeyStore`: live store, dead (tombstone) store, and the
shared sequence allocator (`deadStore->shareSequencesWith(*liveStore)`). -/
structure BothState where
  live : Store
  dead : Store
  lastSeq : Nat
deriving DecidableEq

/-- Core of `BothKeyStore::set` (BothKeyStore.cc, lines 43-82), phrased on the
already-selected `target` and `other` stores.  `Except Unit` models the
`Assert(newSequence)` on the MVCC conflict path: `.error ()` is an assertion
failure.  Result: (returned sequence, target store, other store, allocator). -/
def BothKeyStore.setCore (target other : Store) (lastSeq : Nat)
    (key version value : String) (deleted : Bool) (replacing : Option Nat)
    (newSeq : Bool) : Except Unit (Nat × Store × Store × Nat) :=
  match replacing with
  | none =>
    -- Overwrite: just set, and del from other store:
    let r := physSet target lastSeq key version value deleted none true
    if 0 < r.1 then
      let d := physDel other key none
      .ok (r.1, r.2.1, d.2, r.2.2)
    else .ok (r.1, r.2.1, other, r.2.2)
  | some rs =>
    -- MVCC: an insert (`*replacingSequence == 0`) fails if the doc exists in
    -- the other store.
    if rs = 0 ∧ physExists other key then .ok (0, target, other, lastSeq)
    else
      let r := physSet target lastSeq key version value deleted (some rs) newSeq
      if r.1 = 0 ∧ 0 < rs then
        -- Conflict. Maybe record is currently in the other KeyStore.
        if newSeq then
          let d := physDel other key (some rs)
          if d.1 then
            let r2 := physSet r.2.1 r.2.2 key version value deleted none true
            .ok (r2.1, r2.2.1, d.2, r2.2.2)
          else .ok (0, r.2.1, d.2, r.2.2)
        else .error ()      -- Assert(newSequence) fails
      else .ok (r.1, r.2.1, other, r.2.2)

/-- `BothKeyStore::set`: `target` is the dead store iff the Deleted flag is
set, `other` is the opposite store. -/
def BothKeyStore.set (s : BothState) (key version value : String) (deleted : Bool)
    (replacing : Option Nat) (newSeq : Bool) : Except Unit (Nat × BothState) :=
  if deleted then
    match BothKeyStore.setCore s.dead s.live s.lastSeq key version value deleted
        replacing newSeq with
    | .error e => .error e
    | .ok (seq, tgt, oth, ls) => .ok (seq, ⟨oth, tgt, ls⟩)
  else
    match BothKeyStore.setCore s.live s.dead s.lastSeq key version value deleted
        replacing newSeq with
    | .error e => .error e
    | .ok (seq, tgt, oth, ls) => .ok (seq, ⟨tgt, oth, ls⟩)

/-- `BothKeyStore::nextExpiration` (BothKeyStore.cc, lines 116-123) applied to
the two sub-stores' results `lx` and `dx`. -/
def BothKeyStore.nextExpiration (lx dx : Nat) : Nat :=
  if 0 < lx ∧ 0 < dx then min lx dx else max lx dx

/-- The cross-store invariant: a key is present in at most one of the two
stores. -/
def coreInv (target other : Store) : Prop :=
  ∀ k, ¬((alistLookup target k).isSome ∧ (alistLookup other k).isSome)

/-- The `BothKeyStore` invariant, on its (live, dead) pair. -/
def StoreInv (s : BothState) : Prop := coreInv s.live s.dead


/-! ## BothEnumeratorImpl (`src/LiteCore/Storage/BothKeyStore.cc`, lines 137-195) -/

/-- Which child cursor `_current` points at. -/
inductive Side where
  | live
  | dead
deriving DecidableEq

/-- The (key, sequence) pair a child enumerator exposes for the merge. -/
structure MergeEntry where
  key : String
  seq : Nat
deriving DecidableEq

/-- A child `RecordEnumerator::Impl`: the record it is positioned on (none
before the first `next()`) and the records still ahead of it. -/
structure ChildCursor where
  cur : Option MergeEntry
  pending : List MergeEntry
deriving DecidableEq

/-- Advance a child impl as `BothEnumeratorImpl::next` does: a child whose
`next()` returns false is reset (dropped).  An already-dropped child is left
dropped (the source would dereference a null pointer there; that only happens
after the merged `next()` has already returned false). -/
def childAdvance : Option ChildCursor → Option ChildCursor
  | none => none
  | some c =>
    match c.pending with
    | [] => none
    | e :: rest => some ⟨some e, rest⟩

/-- State of a `BothEnumeratorImpl`: the two child impls, the stored
comparison `_cmp`, and `_current` (none models a null pointer). -/
structure BothEnumState where
  liveImpl : Option ChildCursor
  deadImpl : Option ChildCursor
  cmp : Int
  current : Option Side
deriving DecidableEq

/-- Three-way compare of sequences, as `compare(a, b)` in the source. -/
def cmpSeq (a b : Nat) : Int :=
  if a < b then -1 else if b < a then 1 else 0

/-- Three-way compare of keys (`slice::compare`, lexicographic). -/
def cmpKey (a b : String) : Int :=
  if a < b then -1 else if b < a then 1 else 0

/-- The record a positioned child exposes; the default is never consulted in
states reachable through `next` (a compared child has just been advanced or
retains its previous position). -/
def cursorEntry (c : ChildCursor) : MergeEntry := c.cur.getD ⟨"", 0⟩

/-- `BothEnumeratorImpl::next` (BothKeyStore.cc, lines 149-184): advance the
side(s) selected by `_cmp`, recompute `_cmp` (negating it when descending),
and point `_current` at the side with the lowest key/sequence (live on a
tie). -/
def BothEnumeratorImpl.next (bySequence descending : Bool) (s : BothEnumState) :
    Bool × BothEnumState :=
  let live1 := if s.cmp ≤ 0 then childAdvance s.liveImpl else s.liveImpl
  let dead1 := if 0 ≤ s.cmp then childAdvance s.deadImpl else s.deadImpl
  match live1, dead1 with
  | none, none => (false, ⟨none, none, 0, none⟩)
  | l1, d1 =>
    let cmp1 : Int :=
      match l1, d1 with
      | some lc, some dc =>
        if bySequence then cmpSeq (cursorEntry lc).seq (cursorEntry dc).seq
        else cmpKey (cursorEntry lc).key (cursorEntry dc).key
      | some _, none => -1
      | none, _ => 1
    let cmp2 := if descending then -cmp1 else cmp1
    let current : Option Side :=
      if cmp2 ≤ 0 then (if l1.isSome then some .live else none)
      else (if d1.isSome then some .dead else none)
    (true, ⟨l1, d1, cmp2, current⟩)

/-- A freshly constructed `BothEnumeratorImpl` over the two child record
streams: both impls exist but are not yet positioned, `_cmp = 0`,
`_current = nullptr`. -/
def bothEnumInit (liveRecs deadRecs : List MergeEntry) : BothEnumState :=
  ⟨some ⟨none, liveRecs⟩, some ⟨none, deadRecs⟩, 0, none⟩


/-! ## Query enumerator refresh (`src/LiteCore/Query/SQLiteQuery.cc`) -/

/-- Error codes surfaced by the query enumerator. -/
inductive QErr where
  | UnsupportedOperation
  | InvalidParameter
  | InvalidQueryParam
deriving DecidableEq

/-- The database as `refresh()` observes it: the file's current
`lastSequence()` and the bytes the deterministic row recorder produces for the
query's full result set at that state. -/
structure DbView where
  lastSequence : Nat
  recording : List Nat
deriving DecidableEq

/-- The refresh-relevant state of a `SQLiteQueryEnumerator`: its mode, its
snapshot `_lastSequence`, and the backing bytes of its recording (in buffered
mode the full result set lives in one recording, reachable through
`_curEnumerator`/`_nextEnumerator`/`_oldEnumerator`, which is what
`hasEqualContents` compares by buffer identity). -/
structure RefreshEnum where
  oneShot : Bool
  lastSequence : Nat
  recording : List Nat
deriving DecidableEq

/-- `SQLiteQuery::createEnumerator(options, lastSeq)` (SQLiteQuery.cc, lines
636-647): returns null iff `lastSeq > 0 && lastSeq == lastSequence()`;
otherwise a new buffered enumerator snapshotting the current state. -/
def SQLiteQuery.createEnumerator (db : DbView) (lastSeq : Nat) : Option RefreshEnum :=
  if 0 < lastSeq ∧ lastSeq = db.lastSequence then none
  else some ⟨false, db.lastSequence, db.recording⟩

/-- `SQLiteQueryEnumerator::refresh` (SQLiteQuery.cc, lines 491-506).  Returns
the new enumerator (or none) and the possibly-updated receiver. -/
def SQLiteQueryEnumerator.refresh (e : RefreshEnum) (db : DbView) :
    Except QErr (Option RefreshEnum × RefreshEnum) :=
  if e.oneShot then .error .UnsupportedOperation
  else
    match SQLiteQuery.createEnumerator db e.lastSequence with
    | none => .ok (none, e)
    | some n =>
      if n.recording = e.recording then
        .ok (none, { e with lastSequence := n.lastSequence })
      else .ok (some n, e)


/-! ## Missing-columns bitmap (`SQLiteQueryEnumerator::encodeRow`, lines 565-575) -/

/-- Value of the C++ expression `(uint64_t)(1 << i)` as it occurs in
`missingCols |= (1 << i)`: the shift is computed in 32-bit signed `int`
arithmetic.  For `i < 31` this is `2 ^ i`.  For `i = 31` the `int` value is
`-2^31` (two's complement), which converts to `uint64_t` as
`0xFFFFFFFF80000000 = 2^64 - 2^31`.  For `32 ≤ i` the shift is undefined
behaviour in C++; that branch is modelled as 0 and is never evaluated by the
statements below. -/
def intShl1ToU64 (i : Nat) : Nat :=
  if i < 31 then 2 ^ i else if i = 31 then 2 ^ 64 - 2 ^ 31 else 0

/-- Accumulator loop of `encodeRow`'s bitmap: for each column index `i`, when
`encodeColumn` reported a missing (SQL NULL) column and `i < 64`, OR in
`(1 << i)` (int arithmetic, see `intShl1ToU64`). -/
def encodeRowMissingColsAux : Nat → Nat → List Bool → Nat
  | _, acc, [] => acc
  | i, acc, isNull :: rest =>
    encodeRowMissingColsAux (i + 1)
      (if isNull ∧ i < 64 then acc ||| intShl1ToU64 i else acc) rest

/-- The missing-columns bitmap `encodeRow` appends after a row whose columns'
SQL-NULL-ness is given by `isNull`. -/
def encodeRowMissingCols (isNull : List Bool) : Nat :=
  encodeRowMissingColsAux 0 0 isNull

/-- Modelled from the spec's words, for comparison (claim C5): bit `i` of the
bitmap is 1 iff column `i` (within the first 64) was SQL-NULL. -/
def specMissingColsAux : Nat → Nat → List Bool → Nat
  | _, acc, [] => acc
  | i, acc, isNull :: rest =>
    specMissingColsAux (i + 1) (if isNull ∧ i < 64 then acc ||| 2 ^ i else acc) rest

/-- The bitmap the spec describes (see `specMissingColsAux`). -/
def specMissingCols (isNull : List Bool) : Nat := specMissingColsAux 0 0 isNull

/-- The row used to exhibit claim C5's failure: 64 columns of which exactly
column 31 is SQL NULL. -/
def c5Input : List Bool := List.replicate 31 false ++ [true] ++ List.replicate 32 false


/-! ## Query enumerator seek (`SQLiteQueryEnumerator::seek`, lines 437-479) -/

/-- The seek-relevant state of a `SQLiteQueryPlayback` recording: its
`_firstRow` offset, the element count of its backing Fleece array (two
elements — columns array and bitmap — per recorded row), and the iterator
offset. -/
structure Playback where
  firstRow : Nat
  count : Nat
  pos : Nat
deriving DecidableEq

/-- `SQLiteQueryPlayback::seek` (SQLiteQuery.cc, lines 194-205): false (and no
change) when the requested row is before `_firstRow` or at/past the end of the
recording; otherwise repositions the iterator. -/
def Playback.seekTo (p : Playback) (rowIndex : Int) : Bool × Playback :=
  let r := rowIndex - (p.firstRow : Int)
  if r < 0 then (false, p)
  else if (p.count : Int) ≤ 2 * r then (false, p)
  else (true, { p with pos := (2 * r).toNat })

/-- The seek-relevant state of a `SQLiteQueryEnumerator`: the three recording
slots, `_curRow`, `_rowCount`, and the live statement modelled by its number
of remaining result rows (`none` = statement released/exhausted, as in
buffered mode after `fastForward`). -/
structure QEState where
  curEnumerator : Option Playback
  nextEnumerator : Option Playback
  curRow : Int
  rowCount : Nat
  stmt : Option Nat
deriving DecidableEq

/-- `SQLiteQueryEnumerator::stepStatement` (lines 376-388): advances the live
statement, bumping `_rowCount`; at the end of the result set the statement is
reset to null. -/
def stepStatement (s : QEState) : Bool × QEState :=
  match s.stmt with
  | none => (false, s)
  | some 0 => (false, { s with stmt := none })
  | some (n + 1) => (true, { s with stmt := some n, rowCount := s.rowCount + 1 })

/-- The `while (_rowCount < rowIndex)` loop in `seek`, fuelled (each
successful step increases `_rowCount` by one, so `target.toNat + 1` fuel
always suffices).  False when `stepStatement` ran out of rows. -/
def stepUntil : Nat → Int → QEState → Bool × QEState
  | 0, _, s => (true, s)
  | fuel + 1, target, s =>
    if (s.rowCount : Int) < target then
      let r := stepStatement s
      if r.1 then stepUntil fuel target r.2 else (false, r.2)
    else (true, s)

/-- The row-consuming loop of `encodeRows(maxRows)`: steps the statement up to
`maxRows` times, returning how many rows were recorded. -/
def encodeSteps : Nat → QEState → Nat × QEState
  | 0, s => (0, s)
  | m + 1, s =>
    let r := stepStatement s
    if r.1 then
      let r2 := encodeSteps m r.2
      (r2.1 + 1, r2.2)
    else (0, r.2)

/-- `SQLiteQueryEnumerator::recordRows` (lines 511-525): null when the
statement is already gone or yields no rows; otherwise a playback whose
`firstRow` is the pre-recording `_rowCount`. -/
def recordRows (maxRows : Nat) (s : QEState) : Option Playback × QEState :=
  match s.stmt with
  | none => (none, s)
  | some _ =>
    let firstRow := s.rowCount
    let r := encodeSteps maxRows s
    if r.1 = 0 then (none, r.2) else (some ⟨firstRow, 2 * r.1, 0⟩, r.2)

/-- The part of `seek` after the in-current-recording fast path fails: seeking
back (rewind-to-start or `UnsupportedOperation`) or forward (promote
`_nextEnumerator`, or step the statement and record a fresh page;
`InvalidParameter` past the end).  Note the source resets `_curEnumerator`
before stepping forward. -/
def seekOuter (s : QEState) (rowIndex : Int) : Except QErr Unit × QEState :=
  if rowIndex < s.curRow then
    match s.curEnumerator with
    | some cur =>
      if rowIndex + 1 = (cur.firstRow : Int) then
        let r := cur.seekTo (cur.firstRow : Int)
        (.ok (), { s with curEnumerator := none, nextEnumerator := some r.2,
                          curRow := rowIndex })
      else (.error .UnsupportedOperation, s)
    | none => (.error .UnsupportedOperation, s)
  else
    match s.nextEnumerator with
    | some nxt =>
      let r := nxt.seekTo rowIndex
      if r.1 then
        (.ok (), { s with curEnumerator := some r.2, nextEnumerator := none,
                          curRow := rowIndex })
      else (.error .InvalidParameter, s)
    | none =>
      let s1 := { s with curEnumerator := none }
      let r := stepUntil (rowIndex.toNat + 1) rowIndex s1
      if r.1 then
        let r2 := recordRows 50 r.2
        match r2.1 with
        | some p => (.ok (), { r2.2 with curEnumerator := some p, curRow := rowIndex })
        | none => (.error .InvalidParameter, r2.2)
      else (.error .InvalidParameter, r.2)

/-- `SQLiteQueryEnumerator::seek` (SQLiteQuery.cc, lines 437-479). -/
def SQLiteQueryEnumerator.seek (s : QEState) (rowIndex : Int) :
    Except QErr Unit × QEState :=
  if rowIndex = s.curRow then (.ok (), s)
  else
    match s.curEnumerator with
    | some cur =>
      let r := cur.seekTo rowIndex
      if r.1 then (.ok (), { s with curEnumerator := some r.2, curRow := rowIndex })
      else seekOuter s rowIndex
    | none => seekOuter s rowIndex


/-! ## Parameter binding (`SQLiteQueryEnumerator::bindParameters`, lines 323-368) -/

/-- A Fleece value as `bindParameters` classifies it. -/
inductive FlValue where
  | vnull
  | vbool (b : Bool)
  | vint (i : Int)
  | vuint (n : Nat)
  | vdouble (payload : Int)
  | vstring (s : String)
  | vother (fleece : List Nat)
deriving DecidableEq

/-- A value bound onto the SQLite statement. -/
inductive BoundVal where
  | intVal (i : Int)
  | doubleVal (payload : Int)
  | textVal (s : String)
  | blobVal (fleece : List Nat)
deriving DecidableEq

/-- How one non-null value is bound: signed integers as int64; unsigned
integers, booleans and other numbers via `asDouble()` (double payloads are
carried opaquely — no claim depends on floating-point rounding); strings as
text; every other shape re-encoded as a Fleece blob. -/
def encodeBind : FlValue → BoundVal
  | .vnull => .doubleVal 0        -- unreachable: the kNull case binds nothing
  | .vbool b => .doubleVal (if b then 1 else 0)
  | .vint i => .intVal i
  | .vuint n => .doubleVal (n : Int)
  | .vdouble d => .doubleVal d
  | .vstring s => .textVal s
  | .vother f => .blobVal f

/-- `std::set<string>::erase` on the unbound-parameter set. -/
def eraseAllStr : List String → String → List String
  | [], _ => []
  | x :: rest, k => if x = k then eraseAllStr rest k else x :: eraseAllStr rest k

/-- The dictionary loop of `bindParameters`: every key is erased from
`_unboundParameters`; a `kNull` value binds nothing; any other value is bound
under the key `"$_" + key`, raising `InvalidQueryParam` when the statement has
no such parameter (`SQLITE_RANGE`).  `known` is the statement's parameter
names; the accumulator is (unbound set, bindings made so far). -/
def bindLoop (known : List String) :
    List (String × FlValue) → List String × List (String × BoundVal) →
    Except QErr (List String × List (String × BoundVal))
  | [], st => .ok st
  | (k, v) :: rest, (unbound, binds) =>
    let unbound1 := eraseAllStr unbound k
    match v with
    | .vnull => bindLoop known rest (unbound1, binds)
    | v' =>
      if ("$_" ++ k) ∈ known then
        bindLoop known rest (unbound1, binds ++ [("$_" ++ k, encodeBind v')])
      else .error .InvalidQueryParam

/-- `SQLiteQueryEnumerator::bindParameters` applied to an already-parsed
parameter dictionary, starting (as the constructor does, after
`clearBindings()`) from no bindings. -/
def SQLiteQueryEnumerator.bindParameters (known unbound : List String)
    (pairs : List (String × FlValue)) :
    Except QErr (List String × List (String × BoundVal)) :=
  bindLoop known pairs (unbound, [])


/-! ## Peer checkpoints (`DBActor::handleSetCheckpoint`) -/

/-- Modelled from the spec: a raw document of the `"peerCheckpoints"` store —
an opaque ID maps to `{ meta, body }` (the store itself, `c4raw_get` /
`c4raw_put`, is not part of the source tree). -/
structure RawDoc where
  meta : String
  body : String
deriving DecidableEq

/-- Modelled from the spec: the raw-document store, keyed by checkpoint ID. -/
abbrev RawStore := List (String × RawDoc)

/-- Digit-prefix accumulator for `strtol(meta, &end, 10)`. -/
def strtolDigits : List Char → Nat → Nat
  | [], acc => acc
  | c :: rest, acc =>
    if c.isDigit then strtolDigits rest (acc * 10 + (c.toNat - '0'.toNat)) else acc

/-- Leading-decimal parse of a revision meta (`strtol(..., 10)` on a meta of
the form `<digits>-cc` reads the digit prefix and stops at the dash). -/
def strtolPrefixNat (s : String) : Nat := strtolDigits s.data 0

/-- The responses `handleSetCheckpoint` can produce. -/
inductive CkptResponse where
  | blipError (code : Nat)
  | httpError (code : Nat)
  | success (rev : String)
deriving DecidableEq

/-- A `setCheckpoint` request: the `client` property (checkpoint ID), the
`rev` property, and the body to store.  Missing properties are `none`
(nullslice). -/
structure CkptRequest where
  client : Option String
  rev : Option String
  body : String
deriving DecidableEq

/-- Generation parsed from the stored doc's meta; 0 when there is no doc. -/
def storedGeneration : Option RawDoc → Nat
  | some d => strtolPrefixNat d.meta
  | none => 0

/-- `DBActor::handleSetCheckpoint`: look up the stored peer checkpoint
(`getPeerCheckpointDoc`; a missing `client` property is a BLIP 400, a missing
doc is fine when setting), answer HTTP 409 when the request's `rev` differs
from the stored meta, else store the body under the next `"<gen>-cc"` revision
and respond with it.  Transaction begin/commit and store I/O failures (HTTP
502 paths) are not modelled. -/
def DBActor.handleSetCheckpoint (store : RawStore) (req : CkptRequest) :
    CkptResponse × RawStore :=
  match req.client with
  | none => (.blipError 400, store)
  | some checkpointID =>
    let doc := alistLookup store checkpointID
    let actualRev : Option String := doc.map RawDoc.meta
    if req.rev ≠ actualRev then (.httpError 409, store)
    else
      let rev := toString (storedGeneration doc + 1) ++ "-cc"
      (.success rev, alistSet store checkpointID ⟨rev, req.body⟩)


/-! ## Database key-store cache (`src/CBForest/Database.cc`, lines 171-177) -/

/-- `_kvHandles[name]`: `std::unordered_map::operator[]` returns the stored
handle, default-inserting a null (`none`) entry when the key is absent. -/
def mapBracketKVS (cache : List (String × Option Nat)) (name : String) :
    Option Nat × List (String × Option Nat) :=
  match alistLookup cache name with
  | some v => (v, cache)
  | none => (none, cache ++ [(name, none)])

/-- `Database::closeKeyStore`: read the cached handle via `operator[]`, return
early when it is null, else close it (`fdb_kvs_close`, modelled as succeeding)
and erase the cache entry.  Returns the updated cache and the handles that
were closed. -/
def Database.closeKeyStore (cache : List (String × Option Nat)) (name : String) :
    List (String × Option Nat) × List Nat :=
  let r := mapBracketKVS cache name
  match r.1 with
  | none => (r.2, [])
  | some h => (alistErase r.2 name, [h])



/-! ## Association-list lemmas -/

theorem alistLookup_erase {α : Type} (l : List (String × α)) (k k' : String) :
    alistLookup (alistErase l k) k' = if k' = k then none else alistLookup l k' := by
  induction l with
  | nil => simp [alistErase, alistLookup]
  | cons hd tl ih =>
    obtain ⟨k0, v0⟩ := hd
    by_cases h0 : k0 = k
    · subst h0
      by_cases hk : k' = k0
      · subst hk
        simp [alistErase, alistLookup, ih]
      · simp [alistErase, alistLookup, ih, hk, Ne.symm hk]
  -- placeholder: remaining case below
    · by_cases hk : k' = k
      · subst hk
        simp [alistErase, alistLookup, ih, h0, Ne.symm h0]
      · by_cases h1 : k0 = k'
        · subst h1
          simp [alistErase, alistLookup, ih, h0, hk]
        · simp [alistErase, alistLookup, ih, h0, hk, h1]

theorem alistLookup_set {α : Type} (l : List (String × α)) (k k' : String) (v : α) :
    alistLookup (alistSet l k v) k' = if k' = k then some v else alistLookup l k' := by
  by_cases h : k' = k
  · subst h
    simp [alistSet, alistLookup]
  · simp [alistSet, alistLookup, h, Ne.symm h, alistLookup_erase]

theorem coreInv_comm (a b : Store) (h : coreInv a b) : coreInv b a :=
  fun k hk => h k ⟨hk.2, hk.1⟩

theorem coreInv_set_erase (target other : Store) (key : String) (v : PhysRecord)
    (hinv : coreInv target other) :
    coreInv (alistSet target key v) (alistErase other key) := by
  rintro k ⟨h1, h2⟩
  by_cases hk : k = key
  · subst hk
    rw [alistLookup_erase] at h2
    simp at h2
  · rw [alistLookup_set] at h1
    rw [alistLookup_erase] at h2
    simp [hk] at h1 h2
    exact hinv k ⟨h1, h2⟩

theorem coreInv_set_of_none (target other : Store) (key : String) (v : PhysRecord)
    (hinv : coreInv target other) (hnone : alistLookup other key = none) :
    coreInv (alistSet target key v) other := by
  rintro k ⟨h1, h2⟩
  by_cases hk : k = key
  · subst hk
    rw [hnone] at h2
    simp at h2
  · rw [alistLookup_set] at h1
    simp [hk] at h1
    exact hinv k ⟨h1, h2⟩



theorem setCore_ok (target other : Store) (lastSeq : Nat) (key version value : String)
    (deleted : Bool) (replacing : Option Nat) (newSeq : Bool)
    (hinv : coreInv target other) (seq : Nat) (tgt oth : Store) (ls : Nat)
    (h : BothKeyStore.setCore target other lastSeq key version value deleted replacing
        newSeq = .ok (seq, tgt, oth, ls)) :
    coreInv tgt oth ∧
      (replacing = none →
        0 < seq ∧ alistLookup tgt key = some ⟨version, value, deleted, seq⟩ ∧
          alistLookup oth key = none) := by
  cases replacing with
  | none =>
    simp only [BothKeyStore.setCore, physSet, physDel, Nat.succ_pos, if_pos,
      Except.ok.injEq, Prod.mk.injEq] at h
    obtain ⟨rfl, rfl, rfl, rfl⟩ := h
    refine ⟨coreInv_set_erase _ _ _ _ hinv, fun _ => ⟨Nat.succ_pos _, ?_, ?_⟩⟩
    · rw [alistLookup_set]
      simp
    · rw [alistLookup_erase]
      simp
  | some rs =>
    refine ⟨?_, fun hc => by cases hc⟩
    by_cases h0 : rs = 0 ∧ physExists other key
    · simp only [BothKeyStore.setCore, if_pos h0, Except.ok.injEq, Prod.mk.injEq] at h
      obtain ⟨rfl, rfl, rfl, rfl⟩ := h
      exact hinv
    · by_cases hrs : rs = 0
      · have hnone : alistLookup other key = none := by
          cases halo : alistLookup other key
          · rfl
          · exact absurd ⟨hrs, by simp [physExists, halo]⟩ h0
        have hpe : physExists other key = false := by
          simp [physExists, hnone]
        subst hrs
        cases hl : alistLookup target key with
        | some r0 =>
          have hfin : BothKeyStore.setCore target other lastSeq key version value
              deleted (some 0) newSeq = .ok (0, target, other, lastSeq) := by
            simp [BothKeyStore.setCore, physSet, h0, hpe, hl]
          rw [hfin] at h
          simp only [Except.ok.injEq, Prod.mk.injEq] at h
          obtain ⟨rfl, rfl, rfl, rfl⟩ := h
          exact hinv
        | none =>
          have hfin : BothKeyStore.setCore target other lastSeq key version value
              deleted (some 0) newSeq
              = .ok (lastSeq + 1,
                  alistSet target key ⟨version, value, deleted, lastSeq + 1⟩,
                  other, lastSeq + 1) := by
            simp [BothKeyStore.setCore, physSet, h0, hpe, hl]
          rw [hfin] at h
          simp only [Except.ok.injEq, Prod.mk.injEq] at h
          obtain ⟨rfl, rfl, rfl, rfl⟩ := h
          exact coreInv_set_of_none _ _ _ _ hinv hnone
      · have hrs' : 0 < rs := Nat.pos_of_ne_zero hrs
        by_cases hcas : ∃ r0, alistLookup target key = some r0 ∧ r0.sequence = rs
        · obtain ⟨r0, hl, hseq⟩ := hcas
          have hnone : alistLookup other key = none := by
            cases halo : alistLookup other key
            · rfl
            · exact absurd ⟨by simp [hl], by simp [halo]⟩ (hinv key)
          cases newSeq
          · have hfin : BothKeyStore.setCore target other lastSeq key version value
                deleted (some rs) false
                = .ok (rs, alistSet target key ⟨version, value, deleted, rs⟩,
                    other, lastSeq) := by
              simp [BothKeyStore.setCore, physSet, h0, hl, hseq, hrs]
            rw [hfin] at h
            simp only [Except.ok.injEq, Prod.mk.injEq] at h
            obtain ⟨rfl, rfl, rfl, rfl⟩ := h
            exact coreInv_set_of_none _ _ _ _ hinv hnone
          · have hfin : BothKeyStore.setCore target other lastSeq key version value
                deleted (some rs) true
                = .ok (lastSeq + 1,
                    alistSet target key ⟨version, value, deleted, lastSeq + 1⟩,
                    other, lastSeq + 1) := by
              simp [BothKeyStore.setCore, physSet, h0, hl, hseq, hrs]
            rw [hfin] at h
            simp only [Except.ok.injEq, Prod.mk.injEq] at h
            obtain ⟨rfl, rfl, rfl, rfl⟩ := h
            exact coreInv_set_of_none _ _ _ _ hinv hnone
        · have hps : physSet target lastSeq key version value deleted (some rs) newSeq
              = (0, target, lastSeq) := by
            cases hl : alistLookup target key with
            | some r0 =>
              have hs : ¬r0.sequence = rs := fun hc => hcas ⟨r0, hl, hc⟩
              simp [physSet, hl, hrs, hs]
            | none => simp [physSet, hl, hrs]
          cases newSeq
          · have hfin : BothKeyStore.setCore target other lastSeq key version value
                deleted (some rs) false = .error () := by
              simp [BothKeyStore.setCore, h0, hps, hrs']
            rw [hfin] at h
            cases h
          · by_cases hdel : ∃ r2, alistLookup other key = some r2 ∧ r2.sequence = rs
            · obtain ⟨r2, hl2, hs2⟩ := hdel
              have hpd : physDel other key (some rs) = (true, alistErase other key) := by
                simp [physDel, hl2, hs2]
              have hps2 : physSet target lastSeq key version value deleted none true
                  = (lastSeq + 1,
                      alistSet target key ⟨version, value, deleted, lastSeq + 1⟩,
                      lastSeq + 1) := by
                simp [physSet]
              have hfin : BothKeyStore.setCore target other lastSeq key version value
                  deleted (some rs) true
                  = .ok (lastSeq + 1,
                      alistSet target key ⟨version, value, deleted, lastSeq + 1⟩,
                      alistErase other key, lastSeq + 1) := by
                simp [BothKeyStore.setCore, h0, hps, hpd, hps2, hrs']
              rw [hfin] at h
              simp only [Except.ok.injEq, Prod.mk.injEq] at h
              obtain ⟨rfl, rfl, rfl, rfl⟩ := h
              exact coreInv_set_erase _ _ _ _ hinv
            · have hpd : physDel other key (some rs) = (false, other) := by
                cases hl2 : alistLookup other key with
                | some r2 =>
                  have hs : ¬r2.sequence = rs := fun hc => hdel ⟨r2, hl2, hc⟩
                  simp [physDel, hl2, hs]
                | none => simp [physDel, hl2]
              have hfin : BothKeyStore.setCore target other lastSeq key version value
                  deleted (some rs) true = .ok (0, target, other, lastSeq) := by
                simp [BothKeyStore.setCore, h0, hps, hpd, hrs']
              rw [hfin] at h
              simp only [Except.ok.injEq, Prod.mk.injEq] at h
              obtain ⟨rfl, rfl, rfl, rfl⟩ := h
              exact hinv


/-- Claim C1: for every BothKeyStore satisfying the cross-store invariant,
after any `set` operation that completes (plain upsert, MVCC insert, or MVCC
update), every key is present in at most one of the live and dead sub-stores;
in particular a plain upsert (`replacingSequence` absent) returns a positive
sequence, stores the record in the sub-store selected by the Deleted flag, and
deletes the key from the other sub-store. -/
theorem bothKeyStore_set_preserves_invariant (s : BothState) (key version value : String)
    (deleted : Bool) (replacing : Option Nat) (newSeq : Bool) (seq : Nat) (s' : BothState)
    (hinv : StoreInv s)
    (h : BothKeyStore.set s key version value deleted replacing newSeq = .ok (seq, s')) :
    StoreInv s' ∧
      (replacing = none →
        0 < seq ∧
          alistLookup (if deleted then s'.dead else s'.live) key
            = some ⟨version, value, deleted, seq⟩ ∧
          alistLookup (if deleted then s'.live else s'.dead) key = none) := by
  unfold BothKeyStore.set at h
  cases deleted
  · rw [if_neg (by simp)] at h
    cases hsc : BothKeyStore.setCore s.live s.dead s.lastSeq key version value false
        replacing newSeq with
    | error e =>
      rw [hsc] at h
      cases h
    | ok q =>
      obtain ⟨sq, tgt, oth, ls⟩ := q
      rw [hsc] at h
      simp only [Except.ok.injEq, Prod.mk.injEq] at h
      obtain ⟨rfl, rfl⟩ := h
      have hres := setCore_ok s.live s.dead s.lastSeq key version value false replacing
        newSeq hinv sq tgt oth ls hsc
      refine ⟨hres.1, fun hn => ?_⟩
      simpa using hres.2 hn
  · rw [if_pos rfl] at h
    cases hsc : BothKeyStore.setCore s.dead s.live s.lastSeq key version value true
        replacing newSeq with
    | error e =>
      rw [hsc] at h
      cases h
    | ok q =>
      obtain ⟨sq, tgt, oth, ls⟩ := q
      rw [hsc] at h
      simp only [Except.ok.injEq, Prod.mk.injEq] at h
      obtain ⟨rfl, rfl⟩ := h
      have hres := setCore_ok s.dead s.live s.lastSeq key version value true replacing
        newSeq (coreInv_comm _ _ hinv) sq tgt oth ls hsc
      refine ⟨coreInv_comm _ _ hres.1, fun hn => ?_⟩
      simpa using hres.2 hn

/-- Witness for C1: the upsert of `"a"` into an empty BothKeyStore. -/
theorem bothKeyStore_set_preserves_invariant_witness :
    StoreInv ⟨[], [], 0⟩ ∧
      (StoreInv ⟨[("a", ⟨"v", "w", false, 1⟩)], [], 1⟩ ∧
        ((none : Option Nat) = none →
          0 < 1 ∧
            alistLookup (if false then ([] : Store) else [("a", ⟨"v", "w", false, 1⟩)]) "a"
              = some ⟨"v", "w", false, 1⟩ ∧
            alistLookup (if false then [("a", ⟨"v", "w", false, 1⟩)] else ([] : Store)) "a"
              = none)) := by
  have hinv : StoreInv ⟨[], [], 0⟩ := by
    intro k hk
    simp [alistLookup] at hk
  exact ⟨hinv,
    bothKeyStore_set_preserves_invariant ⟨[], [], 0⟩ "a" "v" "w" false none true 1
      ⟨[("a", ⟨"v", "w", false, 1⟩)], [], 1⟩ hinv rfl⟩


theorem setCore_conflict (target other : Store) (lastSeq : Nat)
    (key version value : String) (deleted : Bool) (rs : Nat) (newSeq : Bool)
    (hrs : 0 < rs)
    (hfail : ∀ r0, alistLookup target key = some r0 → r0.sequence ≠ rs) :
    (newSeq = false →
      BothKeyStore.setCore target other lastSeq key version value deleted (some rs) false
        = .error ()) ∧
    ((∃ r2, alistLookup other key = some r2 ∧ r2.sequence = rs) →
      BothKeyStore.setCore target other lastSeq key version value deleted (some rs) true
        = .ok (lastSeq + 1,
            alistSet target key ⟨version, value, deleted, lastSeq + 1⟩,
            alistErase other key, lastSeq + 1)) ∧
    ((∀ r2, alistLookup other key = some r2 → r2.sequence ≠ rs) →
      BothKeyStore.setCore target other lastSeq key version value deleted (some rs) true
        = .ok (0, target, other, lastSeq)) := by
  have hrs0 : ¬rs = 0 := Nat.pos_iff_ne_zero.mp hrs
  have h0 : ¬(rs = 0 ∧ physExists other key = true) := fun hc => hrs0 hc.1
  have hps : ∀ ns, physSet target lastSeq key version value deleted (some rs) ns
      = (0, target, lastSeq) := by
    intro ns
    cases hl : alistLookup target key with
    | some r0 => simp [physSet, hl, hrs0, hfail r0 hl]
    | none => simp [physSet, hl, hrs0]
  refine ⟨fun _ => ?_, fun hdel => ?_, fun hnodel => ?_⟩
  · simp [BothKeyStore.setCore, h0, hps, hrs]
  · obtain ⟨r2, hl2, hs2⟩ := hdel
    have hpd : physDel other key (some rs) = (true, alistErase other key) := by
      simp [physDel, hl2, hs2]
    have hps2 : physSet target lastSeq key version value deleted none true
        = (lastSeq + 1, alistSet target key ⟨version, value, deleted, lastSeq + 1⟩,
            lastSeq + 1) := by
      simp [physSet]
    simp [BothKeyStore.setCore, h0, hps, hpd, hps2, hrs]
  · have hpd : physDel other key (some rs) = (false, other) := by
      cases hl2 : alistLookup other key with
      | some r2 => simp [physDel, hl2, hnodel r2 hl2]
      | none => simp [physDel, hl2]
    simp [BothKeyStore.setCore, h0, hps, hpd, hrs]

/-- Claim C2 (amended): for an MVCC update (`*replacingSequence = rs > 0`)
whose conditional set in the target sub-store fails, when `newSequence` is true
the store CAS-deletes the key at `rs` from the other sub-store and, on
success, retries an unconditional set in the target and returns the fresh
sequence, while a failed CAS delete leaves the conflict standing with result
0; when `newSequence` is false the code does NOT return 0 — it fails the
`Assert(newSequence)` assertion. -/
theorem bothKeyStore_set_mvcc_crossstore (s : BothState) (key version value : String)
    (deleted : Bool) (rs : Nat) (newSeq : Bool)
    (hrs : 0 < rs)
    (hfail : ∀ r0, alistLookup (if deleted then s.dead else s.live) key = some r0 →
      r0.sequence ≠ rs) :
    (newSeq = false →
      BothKeyStore.set s key version value deleted (some rs) false = .error ()) ∧
    ((∃ r2, alistLookup (if deleted then s.live else s.dead) key = some r2 ∧
        r2.sequence = rs) →
      ∃ s', BothKeyStore.set s key version value deleted (some rs) true
          = .ok (s.lastSeq + 1, s') ∧
        alistLookup (if deleted then s'.dead else s'.live) key
          = some ⟨version, value, deleted, s.lastSeq + 1⟩ ∧
        alistLookup (if deleted then s'.live else s'.dead) key = none) ∧
    ((∀ r2, alistLookup (if deleted then s.live else s.dead) key = some r2 →
        r2.sequence ≠ rs) →
      BothKeyStore.set s key version value deleted (some rs) true = .ok (0, s)) := by
  cases deleted
  · simp only [Bool.false_eq_true, if_false] at hfail ⊢
    have hc := setCore_conflict s.live s.dead s.lastSeq key version value false rs
      newSeq hrs hfail
    refine ⟨fun hn => ?_, fun hdel => ?_, fun hnodel => ?_⟩
    · simp [BothKeyStore.set, hc.1 hn]
    · refine ⟨⟨alistSet s.live key ⟨version, value, false, s.lastSeq + 1⟩,
        alistErase s.dead key, s.lastSeq + 1⟩, ?_, ?_, ?_⟩
      · simp [BothKeyStore.set, hc.2.1 hdel]
      · simp [alistLookup_set]
      · simp [alistLookup_erase]
    · simp [BothKeyStore.set, hc.2.2 hnodel]
  · simp only [if_pos] at hfail ⊢
    have hc := setCore_conflict s.dead s.live s.lastSeq key version value true rs
      newSeq hrs hfail
    refine ⟨fun hn => ?_, fun hdel => ?_, fun hnodel => ?_⟩
    · simp [BothKeyStore.set, hc.1 hn]
    · refine ⟨⟨alistErase s.live key,
        alistSet s.dead key ⟨version, value, true, s.lastSeq + 1⟩, s.lastSeq + 1⟩, ?_, ?_, ?_⟩
      · simp [BothKeyStore.set, hc.2.1 hdel]
      · simp [alistLookup_set]
      · simp [alistLookup_erase]
    · simp [BothKeyStore.set, hc.2.2 hnodel]

/-- Counterexample to claim C2 as stated: a BothKeyStore whose dead store
holds `"b"` at sequence 1; an MVCC update of `"b"` (live target, replacing
sequence 1) with `newSequence = false` does not return the conflict sentinel
0 — it fails the `Assert(newSequence)` assertion. -/
theorem bothKeyStore_set_assert_counterexample :
    BothKeyStore.set ⟨[], [("b", ⟨"v1", "x", true, 1⟩)], 1⟩ "b" "v2" "y" false
        (some 1) false = .error () ∧
    ∀ s', BothKeyStore.set ⟨[], [("b", ⟨"v1", "x", true, 1⟩)], 1⟩ "b" "v2" "y" false
        (some 1) false ≠ .ok (0, s') := by
  constructor
  · rfl
  · intro s' hc
    cases hc

/-- Witness for C2: the cross-store MVCC move succeeds and allocates a fresh
sequence. -/
theorem bothKeyStore_set_mvcc_crossstore_witness :
    ∃ s', BothKeyStore.set ⟨[], [("b", ⟨"v", "x", true, 5⟩)], 5⟩ "b" "v2" "y" false
        (some 5) true = .ok (6, s') ∧
      alistLookup s'.live "b" = some ⟨"v2", "y", false, 6⟩ ∧
      alistLookup s'.dead "b" = none := by
  have h := (bothKeyStore_set_mvcc_crossstore ⟨[], [("b", ⟨"v", "x", true, 5⟩)], 5⟩
      "b" "v2" "y" false 5 true (by decide)
      (by intro r0 hr; simp [alistLookup] at hr)).2.1
  have h2 := h ⟨⟨"v", "x", true, 5⟩, by simp [alistLookup], rfl⟩
  simpa using h2


/-- Claim C7: `nextExpiration()` returns 0 iff both sub-stores report 0;
otherwise it is the minimum of the positive values among the two results. -/
theorem bothKeyStore_nextExpiration_min (lx dx : Nat) :
    (BothKeyStore.nextExpiration lx dx = 0 ↔ lx = 0 ∧ dx = 0) ∧
    (lx ≠ 0 ∨ dx ≠ 0 →
      0 < BothKeyStore.nextExpiration lx dx ∧
      (BothKeyStore.nextExpiration lx dx = lx ∨ BothKeyStore.nextExpiration lx dx = dx) ∧
      (0 < lx → BothKeyStore.nextExpiration lx dx ≤ lx) ∧
      (0 < dx → BothKeyStore.nextExpiration lx dx ≤ dx)) := by
  unfold BothKeyStore.nextExpiration
  simp only [Nat.min_def, Nat.max_def]
  split_ifs <;> omega

/-- Witness for C7 at `lx = 3`, `dx = 0`. -/
theorem bothKeyStore_nextExpiration_min_witness :
    (BothKeyStore.nextExpiration 3 0 = 0 ↔ (3 : Nat) = 0 ∧ (0 : Nat) = 0) ∧
    0 < BothKeyStore.nextExpiration 3 0 :=
  ⟨(bothKeyStore_nextExpiration_min 3 0).1,
    ((bothKeyStore_nextExpiration_min 3 0).2 (Or.inl (by decide))).1⟩

/-- Claim C4 fails on the code: a descending merge over live = {a:1},
dead = {} answers true from the first `next()` while `_current` is null (the
descending negation also flips the exhausted-side sentinel, selecting the
dropped dead cursor), so the surviving live record `a` is never yielded and
reading the current record dereferences a null pointer. -/
theorem bothEnumerator_descending_null_current :
    (BothEnumeratorImpl.next false true (bothEnumInit [⟨"a", 1⟩] [])).1 = true ∧
    (BothEnumeratorImpl.next false true (bothEnumInit [⟨"a", 1⟩] [])).2.current = none ∧
    (BothEnumeratorImpl.next false true (bothEnumInit [⟨"a", 1⟩] [])).2.liveImpl
      = some ⟨some ⟨"a", 1⟩, []⟩ :=
  ⟨rfl, rfl, rfl⟩

/-- Claim C5 fails on the code: in a 64-column row whose only SQL-NULL column
is column 31, `missingCols |= (1 << i)` computes the shift in 32-bit `int`
arithmetic, so the bitmap is `0xFFFFFFFF80000000` (bits 31-63 all set) instead
of the spec's `2^31`; e.g. bit 63 is set although column 63 was not NULL. -/
theorem encodeRow_missing_bitmap_overflow :
    encodeRowMissingCols c5Input = 2 ^ 64 - 2 ^ 31 ∧
    specMissingCols c5Input = 2 ^ 31 ∧
    Nat.testBit (encodeRowMissingCols c5Input) 63 = true ∧
    c5Input.getD 63 false = false := by
  refine ⟨by decide, by decide, by decide, by decide⟩

/-- Claim C3: for a buffered enumerator, under the snapshot-consistency fact
that an unchanged `lastSequence` implies unchanged recorded bytes (sequences
grow strictly across commits and the row recorder is deterministic),
`refresh()` returns a non-null enumerator iff the file's `lastSequence`
changed and the recorded bytes differ; when it returns null after a sequence
change the stored `_lastSequence` is updated; a non-null result is a fresh
snapshot of the current state. -/
theorem queryEnumerator_refresh_iff (e : RefreshEnum) (db : DbView)
    (hbuf : e.oneShot = false)
    (hdet : db.lastSequence = e.lastSequence → db.recording = e.recording) :
    ∃ r, SQLiteQueryEnumerator.refresh e db = .ok r ∧
      (r.1.isSome ↔ db.lastSequence ≠ e.lastSequence ∧ db.recording ≠ e.recording) ∧
      (r.1 = none → db.lastSequence ≠ e.lastSequence →
        r.2.lastSequence = db.lastSequence) ∧
      (∀ n, r.1 = some n → n = ⟨false, db.lastSequence, db.recording⟩) := by
  unfold SQLiteQueryEnumerator.refresh SQLiteQuery.createEnumerator
  simp only [hbuf, Bool.false_eq_true, if_false]
  by_cases hseq : 0 < e.lastSequence ∧ e.lastSequence = db.lastSequence
  · rw [if_pos hseq]
    refine ⟨(none, e), rfl, ?_, ?_, ?_⟩
    · simp [hseq.2.symm]
    · intro _ hne
      exact absurd hseq.2.symm hne
    · intro n hn
      cases hn
  · rw [if_neg hseq]
    by_cases heq : db.recording = e.recording
    · refine ⟨(none, ⟨false, db.lastSequence, e.recording⟩), by simp [heq], ?_, ?_, ?_⟩
      · simp [heq]
      · intro _ _
        rfl
      · intro n hn
        cases hn
    · refine ⟨(some ⟨false, db.lastSequence, db.recording⟩, e), by simp [heq], ?_, ?_, ?_⟩
      · constructor
        · intro _
          exact ⟨fun hc => heq (hdet hc), heq⟩
        · intro _
          rfl
      · intro hn
        cases hn
      · intro n hn
        exact (Option.some.inj hn).symm

/-- Witness for C3: an enumerator snapshotted at sequence 2 with bytes `[1]`,
refreshed after the database moved to sequence 3 with bytes `[2]`. -/
theorem queryEnumerator_refresh_iff_witness :
    ∃ r, SQLiteQueryEnumerator.refresh ⟨false, 2, [1]⟩ ⟨3, [2]⟩ = .ok r ∧
      (r.1.isSome ↔ (3 : Nat) ≠ 2 ∧ ([2] : List Nat) ≠ [1]) ∧
      (r.1 = none → (3 : Nat) ≠ 2 → r.2.lastSequence = 3) ∧
      (∀ n, r.1 = some n → n = ⟨false, 3, [2]⟩) :=
  queryEnumerator_refresh_iff ⟨false, 2, [1]⟩ ⟨3, [2]⟩ rfl (by decide)

theorem alistLookup_append_of_none {α : Type} (l : List (String × α)) (name : String)
    (v : α) (h : alistLookup l name = none) :
    alistLookup (l ++ [(name, v)]) name = some v := by
  induction l with
  | nil => simp [alistLookup]
  | cons hd tl ih =>
    obtain ⟨k0, v0⟩ := hd
    by_cases hk : k0 = name
    · simp [alistLookup, hk] at h
    · have h2 : alistLookup tl name = none := by
        simpa [alistLookup, hk] using h
      simpa [alistLookup, hk] using ih h2

/-- Claim C10 (amended): closing a key store whose name has no cache entry
raises no error and closes no handle, but — because `operator[]`
default-inserts — it leaves a null-handle entry for that name in the cache
(rather than leaving the cache without an entry). -/
theorem closeKeyStore_absent (cache : List (String × Option Nat)) (name : String)
    (habsent : alistLookup cache name = none) :
    Database.closeKeyStore cache name = (cache ++ [(name, none)], []) ∧
    alistLookup (Database.closeKeyStore cache name).1 name = some none := by
  have hmb : mapBracketKVS cache name = (none, cache ++ [(name, none)]) := by
    simp [mapBracketKVS, habsent]
  have h1 : Database.closeKeyStore cache name = (cache ++ [(name, none)], []) := by
    simp [Database.closeKeyStore, hmb]
  refine ⟨h1, ?_⟩
  rw [h1]
  exact alistLookup_append_of_none _ _ _ habsent

/-- Counterexample to claim C10 as stated: closing the never-opened store
`"store"` on an empty cache leaves an entry for `"store"` in the cache (a null
handle), so "the handle cache contains no entry for that name afterward" is
false; no handle is closed. -/
theorem closeKeyStore_inserts_entry_counterexample :
    (Database.closeKeyStore [] "store").1 = [("store", none)] ∧
    alistLookup (Database.closeKeyStore [] "store").1 "store" ≠ none ∧
    (Database.closeKeyStore [] "store").2 = [] := by
  refine ⟨rfl, by decide, rfl⟩

/-- Witness for C10 (amended) on a one-entry cache missing the name. -/
theorem closeKeyStore_absent_witness :
    Database.closeKeyStore [("other", some 7)] "s"
        = ([("other", some 7)] ++ [("s", none)], []) ∧
    alistLookup (Database.closeKeyStore [("other", some 7)] "s").1 "s" = some none :=
  closeKeyStore_absent [("other", some 7)] "s" rfl


theorem seekTo_past (p : Playback) (i : Int)
    (hb : (p.count : Int) ≤ 2 * (i - (p.firstRow : Int))) :
    p.seekTo i = (false, p) := by
  simp only [Playback.seekTo]
  rw [if_neg (by omega), if_pos hb]

theorem seekOuter_past_end (s : QEState) (i : Int)
    (hstmt : s.stmt = none)
    (hrow : s.curRow < i)
    (hnext : ∀ p, s.nextEnumerator = some p →
      (p.count : Int) ≤ 2 * (i - (p.firstRow : Int))) :
    (seekOuter s i).1 = .error .InvalidParameter ∧
    (seekOuter s i).2.curRow = s.curRow ∧
    (s.nextEnumerator ≠ none → (seekOuter s i).2 = s) ∧
    (s.nextEnumerator = none → (seekOuter s i).2.curEnumerator = none) := by
  have hni : ¬i < s.curRow := by omega
  cases hn : s.nextEnumerator with
  | some nxt =>
    have hst : nxt.seekTo i = (false, nxt) := seekTo_past nxt i (hnext nxt hn)
    have hfin : seekOuter s i = (.error .InvalidParameter, s) := by
      simp [seekOuter, hni, hn, hst]
    rw [hfin]
    exact ⟨rfl, rfl, fun _ => rfl, fun hcc => by cases hcc⟩
  | none =>
    have hss : stepStatement ⟨none, none, s.curRow, s.rowCount, s.stmt⟩
        = (false, ⟨none, none, s.curRow, s.rowCount, s.stmt⟩) := by
      simp [stepStatement, hstmt]
    have hfin : seekOuter s i
        = (.error .InvalidParameter, ⟨none, none, s.curRow, s.rowCount, s.stmt⟩) := by
      by_cases hlt : (s.rowCount : Int) < i
      · have hsu : stepUntil (i.toNat + 1) i ⟨none, none, s.curRow, s.rowCount, s.stmt⟩
            = (false, ⟨none, none, s.curRow, s.rowCount, s.stmt⟩) := by
          simp [stepUntil, hlt, hss]
        simp [seekOuter, hni, hn, hsu]
      · have hsu : stepUntil (i.toNat + 1) i ⟨none, none, s.curRow, s.rowCount, s.stmt⟩
            = (true, ⟨none, none, s.curRow, s.rowCount, s.stmt⟩) := by
          simp [stepUntil, hlt]
        have hrr : recordRows 50 ⟨none, none, s.curRow, s.rowCount, s.stmt⟩
            = (none, ⟨none, none, s.curRow, s.rowCount, s.stmt⟩) := by
          simp [recordRows, hstmt]
        simp [seekOuter, hni, hn, hsu, hrr]
    rw [hfin]
    exact ⟨rfl, rfl, fun hcc => absurd rfl hcc, fun _ => rfl⟩

/-- Claim C6 (amended): seeking to a row index past the last recorded row, on
an enumerator whose statement is exhausted (the buffered configuration), fails
with `InvalidParameter` and leaves the current row position unchanged; the
enumerator state is fully unchanged when a next recording is queued, but when
none is queued the current recording is discarded (the source resets
`_curEnumerator` before detecting the overrun). -/
theorem queryEnumerator_seek_past_end (s : QEState) (i : Int)
    (hstmt : s.stmt = none)
    (hrow : s.curRow < i)
    (hcur : ∀ p, s.curEnumerator = some p →
      (p.count : Int) ≤ 2 * (i - (p.firstRow : Int)))
    (hnext : ∀ p, s.nextEnumerator = some p →
      (p.count : Int) ≤ 2 * (i - (p.firstRow : Int))) :
    (SQLiteQueryEnumerator.seek s i).1 = .error .InvalidParameter ∧
    (SQLiteQueryEnumerator.seek s i).2.curRow = s.curRow ∧
    (s.nextEnumerator ≠ none → (SQLiteQueryEnumerator.seek s i).2 = s) ∧
    (s.nextEnumerator = none →
      (SQLiteQueryEnumerator.seek s i).2.curEnumerator = none) := by
  have hne : ¬i = s.curRow := by omega
  have hq : SQLiteQueryEnumerator.seek s i = seekOuter s i := by
    cases hc : s.curEnumerator with
    | some cur =>
      have hst : cur.seekTo i = (false, cur) := seekTo_past cur i (hcur cur hc)
      simp [SQLiteQueryEnumerator.seek, hne, hc, hst]
    | none => simp [SQLiteQueryEnumerator.seek, hne, hc]
  rw [hq]
  exact seekOuter_past_end s i hstmt hrow hnext

/-- Counterexample to claim C6 as stated: a buffered enumerator positioned in
its one-row current recording, with no queued next recording; `seek 5` fails
with `InvalidParameter` as claimed, but the state HAS changed — the current
recording was discarded. -/
theorem queryEnumerator_seek_discards_recording :
    (SQLiteQueryEnumerator.seek ⟨some ⟨0, 2, 0⟩, none, 0, 1, none⟩ 5).1
        = .error .InvalidParameter ∧
    (SQLiteQueryEnumerator.seek ⟨some ⟨0, 2, 0⟩, none, 0, 1, none⟩ 5).2.curEnumerator
        = none ∧
    (⟨some ⟨0, 2, 0⟩, none, 0, 1, none⟩ : QEState).curEnumerator ≠ none := by
  refine ⟨rfl, rfl, by decide⟩

/-- Witness for C6 (amended) at the same concrete state. -/
theorem queryEnumerator_seek_past_end_witness :
    (SQLiteQueryEnumerator.seek ⟨some ⟨0, 2, 0⟩, none, 0, 1, none⟩ 5).1
        = .error .InvalidParameter ∧
    (SQLiteQueryEnumerator.seek ⟨some ⟨0, 2, 0⟩, none, 0, 1, none⟩ 5).2.curRow = 0 := by
  have h := queryEnumerator_seek_past_end ⟨some ⟨0, 2, 0⟩, none, 0, 1, none⟩ 5 rfl
    (by decide) (by rintro p hp; cases hp; decide) (by rintro p hp; cases hp)
  exact ⟨h.1, h.2.1⟩

/-- Claim C8: with a `client` checkpoint ID present, `setCheckpoint` fails
with HTTP 409 iff the request's `rev` differs from the stored doc's meta; on a
match it stores the request body under the new meta
`<stored generation + 1>"-cc"` and responds with that meta. -/
theorem handleSetCheckpoint_conflict_iff (store : RawStore) (req : CkptRequest)
    (cid : String) (hc : req.client = some cid) :
    ((DBActor.handleSetCheckpoint store req).1 = .httpError 409 ↔
      req.rev ≠ (alistLookup store cid).map RawDoc.meta) ∧
    (req.rev = (alistLookup store cid).map RawDoc.meta →
      (DBActor.handleSetCheckpoint store req).1
          = .success (toString (storedGeneration (alistLookup store cid) + 1) ++ "-cc") ∧
      alistLookup (DBActor.handleSetCheckpoint store req).2 cid
          = some ⟨toString (storedGeneration (alistLookup store cid) + 1) ++ "-cc",
              req.body⟩) := by
  by_cases hrev : req.rev = (alistLookup store cid).map RawDoc.meta
  · have hfin : DBActor.handleSetCheckpoint store req
        = (.success (toString (storedGeneration (alistLookup store cid) + 1) ++ "-cc"),
            alistSet store cid
              ⟨toString (storedGeneration (alistLookup store cid) + 1) ++ "-cc",
                req.body⟩) := by
      simp [DBActor.handleSetCheckpoint, hc, hrev]
    rw [hfin]
    refine ⟨?_, fun _ => ⟨rfl, ?_⟩⟩
    · simp [hrev]
    · rw [alistLookup_set]
      simp
  · have hfin : DBActor.handleSetCheckpoint store req = (.httpError 409, store) := by
      simp [DBActor.handleSetCheckpoint, hc, hrev]
    rw [hfin]
    exact ⟨by simp [hrev], fun hcc => absurd hcc hrev⟩

/-- Witness for C8: updating a stored checkpoint at meta `"3-cc"` with the
matching rev yields `"4-cc"`; a mismatching rev is a 409. -/
theorem handleSetCheckpoint_conflict_iff_witness :
    ((DBActor.handleSetCheckpoint [("c", ⟨"3-cc", "old"⟩)] ⟨some "c", some "3-cc", "new"⟩).1
        = .httpError 409 ↔
      (some "3-cc" : Option String)
        ≠ (alistLookup [("c", ⟨"3-cc", "old"⟩)] "c").map RawDoc.meta) ∧
    ((some "3-cc" : Option String)
        = (alistLookup [("c", ⟨"3-cc", "old"⟩)] "c").map RawDoc.meta →
      (DBActor.handleSetCheckpoint [("c", ⟨"3-cc", "old"⟩)] ⟨some "c", some "3-cc", "new"⟩).1
          = .success (toString (storedGeneration (alistLookup [("c", ⟨"3-cc", "old"⟩)] "c") + 1)
              ++ "-cc") ∧
      alistLookup
          (DBActor.handleSetCheckpoint [("c", ⟨"3-cc", "old"⟩)]
            ⟨some "c", some "3-cc", "new"⟩).2 "c"
          = some ⟨toString (storedGeneration (alistLookup [("c", ⟨"3-cc", "old"⟩)] "c") + 1)
              ++ "-cc", "new"⟩) :=
  handleSetCheckpoint_conflict_iff [("c", ⟨"3-cc", "old"⟩)] ⟨some "c", some "3-cc", "new"⟩
    "c" rfl


theorem string_append_right_inj (a b c : String) (h : a ++ b = a ++ c) : b = c := by
  have hd : a.data ++ b.data = a.data ++ c.data := by
    rw [← String.data_append, ← String.data_append, h]
  exact String.ext (List.append_cancel_left hd)

theorem not_mem_eraseAllStr_self (l : List String) (k : String) :
    k ∉ eraseAllStr l k := by
  induction l with
  | nil => simp [eraseAllStr]
  | cons x rest ih =>
    by_cases hx : x = k
    · simpa [eraseAllStr, hx] using ih
    · simp only [eraseAllStr, hx, if_false]
      intro hc
      rcases List.mem_cons.mp hc with hc | hc
      · exact hx hc.symm
      · exact ih hc

theorem mem_of_mem_eraseAllStr (l : List String) (k x : String)
    (h : x ∈ eraseAllStr l k) : x ∈ l := by
  induction l with
  | nil => simp [eraseAllStr] at h
  | cons y rest ih =>
    by_cases hy : y = k
    · simp only [eraseAllStr, hy, if_pos] at h
      exact List.mem_cons_of_mem _ (ih h)
    · simp only [eraseAllStr, hy, if_false] at h
      rcases List.mem_cons.mp h with h | h
      · exact h ▸ List.mem_cons_self _ _
      · exact List.mem_cons_of_mem _ (ih h)

theorem bindLoop_keeps_null_clean (known : List String) (k : String) :
    ∀ (pairs : List (String × FlValue)) (unbound : List String)
      (binds : List (String × BoundVal)) (res : List String × List (String × BoundVal)),
      k ∉ unbound → (∀ p ∈ binds, p.1 ≠ "$_" ++ k) →
      (∀ v, (k, v) ∈ pairs → v = FlValue.vnull) →
      bindLoop known pairs (unbound, binds) = .ok res →
      k ∉ res.1 ∧ ∀ p ∈ res.2, p.1 ≠ "$_" ++ k := by
  intro pairs
  induction pairs with
  | nil =>
    intro unbound binds res hu hb _ h
    cases h
    exact ⟨hu, hb⟩
  | cons hd rest ih =>
    obtain ⟨k0, v0⟩ := hd
    intro unbound binds res hu hb hnull h
    have hu1 : k ∉ eraseAllStr unbound k0 :=
      fun hc => hu (mem_of_mem_eraseAllStr _ _ _ hc)
    have hnull1 : ∀ v, (k, v) ∈ rest → v = FlValue.vnull :=
      fun v hv => hnull v (List.mem_cons_of_mem _ hv)
    cases v0
    · simp only [bindLoop] at h
      exact ih _ _ _ hu1 hb hnull1 h
    all_goals
      simp only [bindLoop] at h
      by_cases hkn : ("$_" ++ k0) ∈ known
      · rw [if_pos hkn] at h
        refine ih _ _ _ hu1 ?_ hnull1 h
        intro p hp
        rcases List.mem_append.mp hp with hp | hp
        · exact hb p hp
        · have hk0 : k0 ≠ k := by
            intro hc
            subst hc
            have := hnull _ (List.mem_cons_self _ _)
            cases this
          have hp1 : p.1 = "$_" ++ k0 := by
            simp only [List.mem_singleton] at hp
            rw [hp]
          rw [hp1]
          exact fun hc => hk0 (string_append_right_inj _ _ _ hc)
      · rw [if_neg hkn] at h
        cases h

theorem bindLoop_null_removes (known : List String) (k : String) :
    ∀ (pairs : List (String × FlValue)) (unbound : List String)
      (binds : List (String × BoundVal)) (res : List String × List (String × BoundVal)),
      (k, FlValue.vnull) ∈ pairs →
      (∀ v, (k, v) ∈ pairs → v = FlValue.vnull) →
      (∀ p ∈ binds, p.1 ≠ "$_" ++ k) →
      bindLoop known pairs (unbound, binds) = .ok res →
      k ∉ res.1 ∧ ∀ p ∈ res.2, p.1 ≠ "$_" ++ k := by
  intro pairs
  induction pairs with
  | nil =>
    intro unbound binds res hk
    cases hk
  | cons hd rest ih =>
    obtain ⟨k0, v0⟩ := hd
    intro unbound binds res hk hnull hb h
    have hnull1 : ∀ v, (k, v) ∈ rest → v = FlValue.vnull :=
      fun v hv => hnull v (List.mem_cons_of_mem _ hv)
    by_cases hk0 : k0 = k
    · subst hk0
      have hv0 : v0 = FlValue.vnull := hnull v0 (List.mem_cons_self _ _)
      subst hv0
      simp only [bindLoop] at h
      exact bindLoop_keeps_null_clean known k0 rest _ _ _
        (not_mem_eraseAllStr_self _ _) hb hnull1 h
    · have hk1 : (k, FlValue.vnull) ∈ rest := by
        rcases List.mem_cons.mp hk with hc | hc
        · exact absurd (congrArg Prod.fst hc).symm hk0
        · exact hc
      cases v0
      · simp only [bindLoop] at h
        exact ih _ _ _ hk1 hnull1 hb h
      all_goals
        simp only [bindLoop] at h
        by_cases hkn : ("$_" ++ k0) ∈ known
        · rw [if_pos hkn] at h
          refine ih _ _ _ hk1 hnull1 ?_ h
          intro p hp
          rcases List.mem_append.mp hp with hp | hp
          · exact hb p hp
          · have hp1 : p.1 = "$_" ++ k0 := by
              simp only [List.mem_singleton] at hp
              rw [hp]
            rw [hp1]
            exact fun hc => hk0 (string_append_right_inj _ _ _ hc)
        · rw [if_neg hkn] at h
          cases h

/-- Claim C9: a parameter whose value is null is removed from the set of
still-unbound parameters (so no unbound-parameter warning covers it), but no
value is bound onto the statement for it — the parameter is left MISSING. -/
theorem bindParameters_null_param (known unbound : List String)
    (pairs : List (String × FlValue)) (k : String)
    (res : List String × List (String × BoundVal))
    (hk : (k, FlValue.vnull) ∈ pairs)
    (honly : ∀ v, (k, v) ∈ pairs → v = FlValue.vnull)
    (hres : SQLiteQueryEnumerator.bindParameters known unbound pairs = .ok res) :
    k ∉ res.1 ∧ ∀ bv, ("$_" ++ k, bv) ∉ res.2 := by
  have h := bindLoop_null_removes known k pairs unbound [] res hk honly
    (by intro p hp; cases hp) hres
  refine ⟨h.1, fun bv hc => ?_⟩
  exact h.2 _ hc rfl

/-- Witness for C9: binding `{n: null, x: "s"}` erases both names from the
unbound set but binds only `$_x`. -/
theorem bindParameters_null_param_witness :
    "n" ∉ ([] : List String) ∧
    ∀ bv, ("$_" ++ "n", bv) ∉ [("$_x", BoundVal.textVal "s")] := by
  have h := bindParameters_null_param ["$_x"] ["n", "x"]
    [("n", .vnull), ("x", .vstring "s")] "n" ([], [("$_x", .textVal "s")])
    (List.mem_cons_self _ _)
    (by
      intro v hv
      simp only [List.mem_cons, List.not_mem_nil, or_false, Prod.mk.injEq] at hv
      rcases hv with ⟨_, hv⟩ | ⟨hv, _⟩
      · exact hv
      · exact absurd hv (by decide))
    rfl
  exact h

end litecore
